import Mathlib

/-!
Verification of the canonical S-expression key-material engine
(`sexputil.c` portion of the repository).

Byte buffers are modelled as `List Nat` (one `Nat` per byte).  Machine
model: LP64 — `size_t` is unbounded in the model (list lengths are `Nat`
and a real buffer length always fits 64 bits), while `unsigned int`
arithmetic is taken modulo `2^32` where the source casts to it.

Functions whose C source is present in `src/` are translated directly.
The low-level tokenizer helpers (`parse_sexp` from `common/tlv.c`,
`snext`/`smatch`/`sskip` from `common/sexp-parse.h`) and the libgcrypt
object interface are *not* part of `src/`; they are modelled from the
spec (sections 4.1, 4.2, 6) and marked as such in their doc comments.

Loops of the C code are encoded with an explicit fuel argument so that
every definition is executable by the kernel.  Each loop consumes at
least one input byte per iteration, so fuel `buf.length + 1` is always
sufficient; the wrappers use exactly that fuel and fuel-irrelevance
lemmas below show the choice of fuel is immaterial.
-/

-- DEFINITIONS --------------------------------------------------------------
/-- Error kinds surfaced by the extraction routines, mirroring the
`gpg_error_t` codes used in the source (`GPG_ERR_INV_SEXP`,
`GPG_ERR_BAD_PUBKEY`, `GPG_ERR_WRONG_PUBKEY_ALGO`, `GPG_ERR_DUP_VALUE`,
`GPG_ERR_UNKNOWN_SEXP`). -/
inductive Err where
  | malformed
  | badPubkey
  | wrongPubkeyAlgo
  | dupValue
  | unknownSexp
  deriving DecidableEq, Repr
instance decEqExcept {e a : Type} [DecidableEq e] [DecidableEq a] :
    DecidableEq (Except e a) := fun x y =>
  match x, y with
  | .error u, .error v =>
    if h : u = v then isTrue (by rw [h]) else isFalse (fun hc => by cases hc; exact h rfl)
  | .error _, .ok _ => isFalse (fun hc => by cases hc)
  | .ok _, .error _ => isFalse (fun hc => by cases hc)
  | .ok u, .ok v =>
    if h : u = v then isTrue (by rw [h]) else isFalse (fun hc => by cases hc; exact h rfl)

/-- Reads the maximal leading run of ASCII decimal digits, accumulating
their value (`acc*10 + digit` per step, as in the C `for` loops of the
tokenizer and of `strtoul`), and returns the value together with the
unconsumed remainder. -/
def readLen : List Nat → Nat → Nat × List Nat
  | [], acc => (acc, [])
  | c :: t, acc =>
    if 48 ≤ c ∧ c ≤ 57 then readLen t (acc * 10 + (c - 48)) else (acc, c :: t)

/-- Modelled from the spec: the canonical-S-expression tokenizer
(`parse_sexp` of `common/tlv.c`, declared but not present under `src/`).
Given the remaining buffer and current depth it yields either a framed
data token, a list-open (depth+1) or list-close (depth-1) boundary, and
fails with `MalformedSexp` on a close at depth 0, on a missing `:` after
the decimal length prefix, or when the buffer is shorter than the stated
token length.  An exhausted buffer is an error at positive depth and a
successful end at depth 0 (the C loop conditions rely on exactly this). -/
def parse_sexp (buf : List Nat) (depth : Nat) :
    Except Err (Option (List Nat) × List Nat × Nat) :=
  match buf with
  | [] => if depth = 0 then .ok (none, [], 0) else .error .malformed
  | c :: rest =>
    if c = 40 then .ok (none, rest, depth + 1)
    else if c = 41 then
      if depth = 0 then .error .malformed else .ok (none, rest, depth - 1)
    else
      match readLen (c :: rest) 0 with
      | (vlen, 58 :: rest2) =>
        if vlen ≤ rest2.length then .ok (some (rest2.take vlen), rest2.drop vlen, depth)
        else .error .malformed
      | (_, _) => .error .malformed

/-- Strip all leading zero bytes (`for (; mlen && !*m; mlen--, m++);`). -/
def stripZeros : List Nat → List Nat
  | 0 :: t => stripZeros t
  | l => l

/-- Fuel-driven core of `decBytes`; fuel larger than the value is always
sufficient since the value shrinks by a factor of ten per step. -/
def decBytesGo : Nat → Nat → List Nat
  | 0, _ => []
  | fuel + 1, n =>
    if n < 10 then [48 + n] else decBytesGo fuel (n / 10) ++ [48 + n % 10]

/-- The ASCII decimal digits of `n`, as produced by `snprintf ("%u", n)`
in the source. -/
def decBytes (n : Nat) : List Nat := decBytesGo (n + 1) n

/-- Encoding of one data token: decimal length prefix, `:`, raw bytes. -/
def encTok (t : List Nat) : List Nat := decBytes t.length ++ 58 :: t

/-- Digit-run accumulator, the functional form of the tokenizer loop. -/
def foldDigits (acc : Nat) (ds : List Nat) : Nat :=
  ds.foldl (fun a d => a * 10 + (d - 48)) acc

-- Basic lemmas about the helpers ------------------------------------------
/-- The bytes of the token `public-key`. -/
def pubkeyTok : List Nat := [112, 117, 98, 108, 105, 99, 45, 107, 101, 121]

/-- The bytes of the token `rsa`. -/
def rsaTok : List Nat := [114, 115, 97]

/-- The literal fragment `(10:public-key(3:rsa(1:n` of the builder. -/
def part1 : List Nat :=
  [40, 49, 48, 58] ++ pubkeyTok ++ [40, 51, 58] ++ rsaTok ++ [40, 49, 58, 110]

/-- The literal fragment `)(1:e`. -/
def part2 : List Nat := [41, 40, 49, 58, 101]

/-- The literal fragment `)))`. -/
def part3 : List Nat := [41, 41, 41]

/-- The padding condition of the builder and of the spec's canonical MPI
rule: the stripped value is empty or its first byte has the high bit set
(`!mlen || (m[0] & 0x80)`). -/
def needPad (v : List Nat) : Prop :=
  stripZeros v = [] ∨ ((stripZeros v).headD 0).testBit 7
instance needPadDec (v : List Nat) : Decidable (needPad v) :=
  inferInstanceAs (Decidable (stripZeros v = [] ∨ ((stripZeros v).headD 0).testBit 7))

/-- The `m_extra`/`e_extra` flag of the builder: 1 iff the stripped value
is empty or its first byte has the high bit set. -/
def zeroExtra (v : List Nat) : Nat := if needPad v then 1 else 0

/-- The single zero byte the builder inserts when `zeroExtra` is set. -/
def sign_pad (v : List Nat) : List Nat := List.replicate (zeroExtra v) 0

/-- The decimal length prefix written by `snprintf (..., "%u:", (unsigned
int)len + extra)`: the value passes through `unsigned int`, hence is taken
modulo `2^32`, followed by `:`. -/
def lenStr (n : Nat) : List Nat := decBytes (n % 4294967296) ++ [58]

/-- Translation of `make_canon_sexp_from_rsa_pk` (src lines 436-493):
strips leading zeros of each input, prepends a single zero byte when the
value is empty or its first byte has the high bit set, and concatenates
the literal fragments with exact decimal length prefixes.  The returned
list is the full output; its length is the reported `*r_len`. -/
def make_canon_sexp_from_rsa_pk (m e : List Nat) : List Nat :=
  part1 ++ lenStr ((stripZeros m).length + zeroExtra m) ++ sign_pad m ++ stripZeros m
    ++ part2 ++ lenStr ((stripZeros e).length + zeroExtra e) ++ sign_pad e ++ stripZeros e
    ++ part3

/-- Modelled from the spec's words (refinement target for C3): canonical
MPI form — strip all leading zero bytes, then prepend exactly one zero
byte iff the remaining value is empty or its first byte has the high bit
set. -/
def canonMPI (v : List Nat) : List Nat :=
  if needPad v then 0 :: stripZeros v else stripZeros v

/-- Modelled from the spec's words (refinement target for C3): the claimed
output shape of the RSA public-key builder. -/
def rsa_sexp_spec (m e : List Nat) : List Nat :=
  part1 ++ decBytes (canonMPI m).length ++ [58] ++ canonMPI m
    ++ part2 ++ decBytes (canonMPI e).length ++ [58] ++ canonMPI e ++ part3
/-- Fuel-driven core of the list skipper.  One unit of fuel per loop
iteration; each successful iteration consumes at least one byte, so fuel
`buf.length + 1` never runs out. -/
def skipLoopGo : Nat → List Nat → Nat → Nat → Except Err (List Nat × Nat)
  | 0, _, _, _ => .error .malformed
  | fuel + 1, buf, d, last =>
    match parse_sexp buf d with
    | .error e => .error e
    | .ok (_, b1, d1) =>
      if d1 ≠ 0 ∧ last ≤ d1 then skipLoopGo fuel b1 d1 last else .ok (b1, d1)

/-- Translation of the skip loops of `get_rsa_pk_from_canon_sexp`
(src lines 532-534 and 567-570): repeatedly tokenize while the depth is
nonzero and at least `last` (`while (!(err = parse_sexp (...)) && depth
&& depth >= last_depth)`), returning the final cursor and depth. -/
def skipLoop (buf : List Nat) (d last : Nat) : Except Err (List Nat × Nat) :=
  skipLoopGo (buf.length + 1) buf d last
/-- Fuel-driven core of the sibling loop of `get_rsa_pk_from_canon_sexp`
(src lines 532-573).  One unit of fuel per outer iteration; each
iteration consumes at least one byte.  Body, in source order: the loop
condition tokenizes and continues while depth is nonzero and at least
`last`; a data token where a sibling `(` is expected is
`GPG_ERR_UNKNOWN_SEXP`; a single-byte name selects the `n` or `e` slot;
a selected slot already bound is `GPG_ERR_DUP_VALUE`; the value token is
bound after stripping leading zero bytes; the inner skip loop then
consumes the rest of the sibling list. -/
def rsaLoopGo : Nat → List Nat → Nat → Nat → Option (List Nat) → Option (List Nat) →
    Except Err (Option (List Nat) × Option (List Nat) × List Nat × Nat)
  | 0, _, _, _, _, _ => .error .malformed
  | fuel + 1, buf, d, last, rn, re =>
    match parse_sexp buf d with
    | .error e => .error e
    | .ok (t, b1, d1) =>
      if d1 ≠ 0 ∧ last ≤ d1 then
        match t with
        | some _ => .error .unknownSexp
        | none =>
          match parse_sexp b1 d1 with
          | .error e => .error e
          | .ok (t2, b2, d2) =>
            match t2 with
            | some nm =>
              if nm = [110] then
                if rn.isSome then .error .dupValue
                else
                  match parse_sexp b2 d2 with
                  | .error e => .error e
                  | .ok (t3, b3, d3) =>
                    match skipLoop b3 d3 d3 with
                    | .error e => .error e
                    | .ok (b4, d4) =>
                      rsaLoopGo fuel b4 d4 last
                        (match t3 with | some v => some (stripZeros v) | none => rn) re
              else if nm = [101] then
                if re.isSome then .error .dupValue
                else
                  match parse_sexp b2 d2 with
                  | .error e => .error e
                  | .ok (t3, b3, d3) =>
                    match skipLoop b3 d3 d3 with
                    | .error e => .error e
                    | .ok (b4, d4) =>
                      rsaLoopGo fuel b4 d4 last rn
                        (match t3 with | some v => some (stripZeros v) | none => re)
              else if nm.length = 1 then
                match parse_sexp b2 d2 with
                | .error e => .error e
                | .ok (_, b3, d3) =>
                  match skipLoop b3 d3 d3 with
                  | .error e => .error e
                  | .ok (b4, d4) => rsaLoopGo fuel b4 d4 last rn re
              else
                match skipLoop b2 d2 d2 with
                | .error e => .error e
                | .ok (b4, d4) => rsaLoopGo fuel b4 d4 last rn re
            | none =>
              match skipLoop b2 d2 d2 with
              | .error e => .error e
              | .ok (b4, d4) => rsaLoopGo fuel b4 d4 last rn re
      else .ok (rn, re, b1, d1)

/-- The sibling loop with its always-sufficient fuel. -/
def rsaLoop (buf : List Nat) (d last : Nat) (rn re : Option (List Nat)) :
    Except Err (Option (List Nat) × Option (List Nat) × List Nat × Nat) :=
  rsaLoopGo (buf.length + 1) buf d last rn re

/-- Translation of `get_rsa_pk_from_canon_sexp` (src lines 498-586):
two tokenizer steps and a check for `public-key` (`GPG_ERR_BAD_PUBKEY`
otherwise), two more steps and a check for `rsa`
(`GPG_ERR_WRONG_PUBKEY_ALGO` otherwise), the sibling loop, then
`GPG_ERR_BAD_PUBKEY` unless both `n` and `e` were bound to a nonempty
stripped value.  On success returns the borrowed `n` and `e` byte
ranges. -/
def get_rsa_pk_from_canon_sexp (keydata : List Nat) : Except Err (List Nat × List Nat) :=
  match parse_sexp keydata 0 with
  | .error e => .error e
  | .ok (_, b1, d1) =>
    match parse_sexp b1 d1 with
    | .error e => .error e
    | .ok (t2, b2, d2) =>
      if t2 ≠ some pubkeyTok then .error .badPubkey
      else
        match parse_sexp b2 d2 with
        | .error e => .error e
        | .ok (_, b3, d3) =>
          match parse_sexp b3 d3 with
          | .error e => .error e
          | .ok (t4, b4, d4) =>
            if t4 ≠ some rsaTok then .error .wrongPubkeyAlgo
            else
              match rsaLoop b4 d4 d4 none none with
              | .error e => .error e
              | .ok (rn, re, _, _) =>
                match rn, re with
                | some nv, some ev =>
                  if nv = [] ∨ ev = [] then .error .badPubkey else .ok (nv, ev)
                | _, _ => .error .badPubkey

-- Reference model of the sibling loop --------------------------------------

/-- Reference effect of one well-formed `(name value)` sibling on the
binding state, mirroring the body of the sibling loop. -/
def sibAction (nm v : List Nat) (rn re : Option (List Nat)) :
    Except Err (Option (List Nat) × Option (List Nat)) :=
  if nm = [110] then
    if rn.isSome then .error .dupValue else .ok (some (stripZeros v), re)
  else if nm = [101] then
    if re.isSome then .error .dupValue else .ok (rn, some (stripZeros v))
  else .ok (rn, re)

/-- Reference fold of `sibAction` over a sibling list. -/
def loopRef : List (List Nat × List Nat) → Option (List Nat) → Option (List Nat) →
    Except Err (Option (List Nat) × Option (List Nat))
  | [], rn, re => .ok (rn, re)
  | (nm, v) :: sibs, rn, re =>
    match sibAction nm v rn re with
    | .error e => .error e
    | .ok (rn2, re2) => loopRef sibs rn2 re2

/-- Reference form of the final `!rsa_n || !rsa_n_len || !rsa_e ||
!rsa_e_len` check of the extractor. -/
def finalize : Except Err (Option (List Nat) × Option (List Nat)) →
    Except Err (List Nat × List Nat)
  | .error e => .error e
  | .ok (some nv, some ev) =>
    if nv = [] ∨ ev = [] then .error .badPubkey else .ok (nv, ev)
  | .ok (_, _) => .error .badPubkey

/-- Byte encoding of one `(name value)` sibling. -/
def encSib (nm v : List Nat) : List Nat := 40 :: (encTok nm ++ (encTok v ++ [41]))

/-- Byte encoding of a sibling list. -/
def sibsEnc (sibs : List (List Nat × List Nat)) : List Nat :=
  (sibs.map fun p => encSib p.1 p.2).flatten

/-- A full `(public-key (rsa SIBLINGS))` canonical S-expression. -/
def mkRsaKey (sibs : List (List Nat × List Nat)) : List Nat :=
  40 :: (encTok pubkeyTok ++ (40 :: (encTok rsaTok ++ (sibsEnc sibs ++ [41, 41]))))
/-- Number of siblings carrying the name `nm`. -/
def countName (nm : List Nat) (sibs : List (List Nat × List Nat)) : Nat :=
  (sibs.filter fun p => decide (p.1 = nm)).length
/-- C4 (counterexample): a key in which the wanted name `n` occurs in two
siblings — `(n (x))` where the value is a list, and later `(n 5)` — but
extraction succeeds with `n = [5]` instead of failing with the
duplicate-component error, because a first occurrence whose value is not
a data token leaves the slot unbound. -/
def c4Input : List Nat :=
  40 :: (encTok pubkeyTok ++ (40 :: (encTok rsaTok
    ++ ((40 :: (encTok [110] ++ ((40 :: (encTok [120] ++ [41])) ++ [41])))
      ++ (encSib [122] [7] ++ (encSib [110] [5] ++ (encSib [101] [3] ++ [41, 41])))))))

/-- Modelled from the spec: `snext` of `common/sexp-parse.h` (declared
but not present under `src/`) — reads the decimal length prefix of the
next data token (a zero length is rejected: `if (!n || *s != ':')`) and
returns the token bytes together with the remainder.  Reading past the
end of the buffer is modelled as a failure, per the spec's tokenizer
contract (buffer shorter than the stated length is malformed). -/
def snext (s : List Nat) : Option (List Nat × List Nat) :=
  match readLen s 0 with
  | (n, 58 :: rest) =>
    if n = 0 then none
    else if n ≤ rest.length then some (rest.take n, rest.drop n) else none
  | _ => none

/-- Fuel-driven core of `sskip`. -/
def sskipGo : Nat → List Nat → Nat → Option (List Nat)
  | 0, _, _ => none
  | fuel + 1, s, d =>
    if d = 0 then some s
    else
      match s with
      | [] => none
      | c :: t =>
        if c = 40 then sskipGo fuel t (d + 1)
        else if c = 41 then sskipGo fuel t (d - 1)
        else
          match snext (c :: t) with
          | none => none
          | some (_, rest) => sskipGo fuel rest d

/-- Modelled from the spec (section 4.2): `sskip` of
`common/sexp-parse.h` (declared but not present under `src/`) — skips
over the remainder of an S-expression given the number `d` of currently
open lists, consuming nested lists wholesale, until the depth returns to
zero; exhausted input is a failure (`MalformedSexp`, here `none`). -/
def sskip (s : List Nat) (d : Nat) : Option (List Nat) := sskipGo (s.length + 1) s d
/-- The bytes of the token `sig-val`. -/
def sigvalTok : List Nat := [115, 105, 103, 45, 118, 97, 108]

/-- The bytes of the token `hash`. -/
def hashTok : List Nat := [104, 97, 115, 104]

/-- Translation of `hash_algo_from_sigval` (src lines 389-428): expects
`(`, token `sig-val`, `(`, skips the algo+parameter list wholesale via
`sskip` with depth 1, then reads `(`, token `hash`, and the
hash-algorithm name token; every unexpected shape returns 0, and a name
token with `n + 1 >= sizeof buffer` (buffer of 50 bytes, i.e. names of
49 bytes or more) also returns 0.  The external registry
`gcry_md_map_name` is a parameter (spec section 6); an exhausted buffer
is modelled as an invalid shape (the C code walks a raw pointer). -/
def hash_algo_from_sigval (md_map_name : List Nat → Nat) (s : List Nat) : Nat :=
  match s with
  | [] => 0
  | c :: s1 =>
    if c = 40 then
      match snext s1 with
      | none => 0
      | some (tok, s2) =>
        if tok = sigvalTok then
          match s2 with
          | [] => 0
          | c2 :: s3 =>
            if c2 = 40 then
              match sskip s3 1 with
              | none => 0
              | some s4 =>
                match s4 with
                | [] => 0
                | c3 :: s5 =>
                  if c3 = 40 then
                    match snext s5 with
                    | none => 0
                    | some (tok2, s6) =>
                      if tok2 = hashTok then
                        match snext s6 with
                        | none => 0
                        | some (alg, _) =>
                          if 50 ≤ alg.length + 1 then 0 else md_map_name alg
                      else 0
                  else 0
            else 0
        else 0
    else 0

/-- A sig-val expression `(7:sig-val(3:rsa(1:s3:abc))(4:hash NAME))` with
the given hash algorithm name token. -/
def mkSigval (name : List Nat) : List Nat :=
  40 :: (encTok sigvalTok ++ (40 :: (encTok rsaTok ++ (40 :: (encTok [115]
    ++ (encTok [97, 98, 99] ++ (41 :: (41 :: (40 :: (encTok hashTok
    ++ (encTok name ++ [41, 41])))))))))))

/-- The same sig-val with no embedded `(hash …)` tag:
`(7:sig-val(3:rsa(1:s3:abc)))`. -/
def mkSigvalNoHash : List Nat :=
  40 :: (encTok sigvalTok ++ (40 :: (encTok rsaTok ++ (40 :: (encTok [115]
    ++ (encTok [97, 98, 99] ++ (41 :: (41 :: [41]))))))))
/-- Modelled from standard GnuPG helpers (not under `src/`): `hexdigitp`,
true on ASCII `0-9`, `A-F`, `a-f`. -/
def hexdigitp (c : Nat) : Bool :=
  decide ((48 ≤ c ∧ c ≤ 57) ∨ (65 ≤ c ∧ c ≤ 70) ∨ (97 ≤ c ∧ c ≤ 102))

/-- Modelled from standard GnuPG helpers (not under `src/`): `xtoi_1`,
the value of one hex digit. -/
def xtoi_1 (c : Nat) : Nat :=
  if c ≤ 57 then c - 48 else if c ≤ 70 then c - 55 else c - 87

/-- The first loop of `make_simple_sexp_from_hexstr`: the number of
leading hex digits (`for (n=0, s=line; hexdigitp (s); s++, n++);`). -/
def hexRun : List Nat → Nat
  | [] => 0
  | c :: t => if hexdigitp c then hexRun t + 1 else 0

/-- The pair loop of `make_simple_sexp_from_hexstr` (`xtoi_2` per pair). -/
def hexPairs : List Nat → List Nat
  | a :: b :: t => (xtoi_1 a * 16 + xtoi_1 b) :: hexPairs t
  | _ => []

/-- Translation of `make_simple_sexp_from_hexstr` (src lines 347-383):
scans the maximal leading run of hex digits (count always reported as
`*nscanned`), returns `none` if the run is empty, and otherwise builds
`(` + decimal length + `:` + bytes + `)` where an odd digit count
contributes its first digit as a low nibble (implicit leading zero).
The trailing NUL the C code writes after `)` is not part of the
S-expression and is not modelled. -/
def make_simple_sexp_from_hexstr (line : List Nat) : Option (List Nat) × Nat :=
  let n := hexRun line
  if n = 0 then (none, 0)
  else
    (some ([40] ++ decBytes ((n + 1) / 2) ++ [58]
      ++ (if n % 2 = 1 then
            match line.take n with
            | [] => []
            | d :: t => xtoi_1 d :: hexPairs t
          else hexPairs (line.take n)) ++ [41]), n)
/-- Result of the simple comparator: a returned `int`, or the fatal
`log_bug` abort path. -/
inductive CmpRes where
  | ok (r : Nat)
  | bug
  deriving DecidableEq, Repr

/-- Translation of `cmp_simple_canon_sexp` (src lines 305-337).  Null
pointers are `none`.  The C code walks NUL-terminated buffers, so
reading one byte past an exhausted list is modelled by `headD 0` (the
terminating NUL); `strtoul (·, ·, 10)` is modelled as the maximal
leading decimal-digit run (its whitespace/sign handling is never
reachable from canonical S-expression inputs guarded by the preceding
`(` check); `log_bug` aborts, modelled as `CmpRes.bug`. -/
def cmp_simple_canon_sexp : Option (List Nat) → Option (List Nat) → CmpRes
  | none, none => .ok 0
  | none, some _ => .ok 1
  | some _, none => .ok 1
  | some a, some b =>
    if a.headD 0 ≠ 40 ∨ b.headD 0 ≠ 40 then .bug
    else
      match readLen (a.drop 1) 0, readLen (b.drop 1) 0 with
      | (n1, ra), (n2, rb) =>
        if ra.headD 0 ≠ 58 ∨ rb.headD 0 ≠ 58 then .bug
        else if n1 ≠ n2 then .ok 1
        else if (ra.drop 1).take n1 = (rb.drop 1).take n1 then .ok 0 else .ok 1

/-- Modelled from the spec (section 6): the opaque parsed S-expression
object of the external cryptographic library — an atom (data element) or
a list of objects. -/
inductive Sexp where
  | atom (data : List Nat)
  | list (items : List Sexp)

/-- Modelled from the spec: `gcry_sexp_nth` — the Nth element of a list
object, `none` for an atom or out of range. -/
def gcry_sexp_nth : Sexp → Nat → Option Sexp
  | .atom _, _ => none
  | .list xs, n => xs.get? n

/-- Modelled from the spec: `gcry_sexp_nth_data` — the data of the Nth
element when that element is a data element, `none` otherwise. -/
def gcry_sexp_nth_data : Sexp → Nat → Option (List Nat)
  | .atom d, 0 => some d
  | .atom _, _ => none
  | .list xs, n =>
    match xs.get? n with
    | some (.atom d) => some d
    | _ => none

/-- Modelled from the spec: `gcry_sexp_length` — number of elements of a
list object (1 for an atom). -/
def gcry_sexp_length : Sexp → Nat
  | .atom _ => 1
  | .list xs => xs.length

/-- The bytes of the token `flags`. -/
def flagsTok : List Nat := [102, 108, 97, 103, 115]

/-- The bytes of the token `eddsa`. -/
def eddsaTok : List Nat := [101, 100, 100, 115, 97]

/-- Whether an element is a sub-list whose first element is the given
token (the shape `gcry_sexp_find_token` searches for). -/
def sexp_car_is (tokname : List Nat) : Sexp → Bool
  | .list (.atom t :: _) => decide (t = tokname)
  | _ => false

/-- Modelled from the spec: `gcry_sexp_find_token` — the first immediate
sub-list of the object whose first element is the given token. -/
def gcry_sexp_find_token (s : Sexp) (tokname : List Nat) : Option Sexp :=
  match s with
  | .list xs => xs.find? (sexp_car_is tokname)
  | .atom _ => none

/-- The ECC/EdDSA disambiguation scan of `get_pk_algo_from_key` (src
lines 611-629): some element of the `flags` sub-list at index `i > 0`
(the loop runs from `length-1` down to 1) is the data token `eddsa`. -/
def hasEddsaFlag (lst : Sexp) : Bool :=
  match gcry_sexp_find_token lst flagsTok with
  | none => false
  | some l1 =>
    (List.range (gcry_sexp_length l1)).any fun i =>
      decide (i ≠ 0) && decide (gcry_sexp_nth_data l1 i = some eddsaTok)

/-- `GCRY_PK_ECC`. -/
def GCRY_PK_ECC : Nat := 18

/-- `GCRY_PK_EDDSA`. -/
def GCRY_PK_EDDSA : Nat := 303

/-- Translation of `get_pk_algo_from_key` (src lines 590-635): reads
element 1 of the key (the algorithm sub-list), its element 0 (the
algorithm name, rejected when 6 or more bytes — `n >= sizeof algoname`),
maps it through the external registry `map_name`, and only when the
result is the generic `GCRY_PK_ECC` refines it to `GCRY_PK_EDDSA` if a
`flags` sub-list carries the token `eddsa`.  Every failing step lands on
`algo = 0` via `goto out`; the function always returns a value. -/
def get_pk_algo_from_key (map_name : List Nat → Nat) (key : Sexp) : Nat :=
  match gcry_sexp_nth key 1 with
  | none => 0
  | some lst =>
    match gcry_sexp_nth_data lst 0 with
    | none => 0
    | some s =>
      if 6 ≤ s.length then 0
      else if map_name s = GCRY_PK_ECC then
        if hasEddsaFlag lst then GCRY_PK_EDDSA else map_name s
      else map_name s

/-- Translation of `get_pk_algo_from_canon_sexp` (src lines 641-653):
parse via the external library (0 on failure), classify, release. -/
def get_pk_algo_from_canon_sexp (map_name : List Nat → Nat)
    (sscan : List Nat → Option Sexp) (keydata : List Nat) : Nat :=
  match sscan keydata with
  | none => 0
  | some sx => get_pk_algo_from_key map_name sx

/-- Error kinds of the keygrip bridge (`GPG_ERR_INV_VALUE`,
`GPG_ERR_INTERNAL`, or a propagated external parse error code). -/
inductive GripErr where
  | invValue
  | internal
  | ext (code : Nat)
  deriving DecidableEq, Repr

/-- Modelled from the spec (section 6): the external cryptographic
library as seen by the keygrip bridge — parse canonical bytes into an
opaque object, and compute a 20-byte keygrip from an object. -/
structure GcryEnv where
  sscan : List Nat → Except Nat Sexp
  get_keygrip : Sexp → Option (List Nat)

/-- Observable outcome of one `keygrip_from_canon_sexp` call: the
returned result plus a trace of the external interactions — how many
times the parser was invoked, how many parsed-object handles were
acquired, and how many were released. -/
structure GripOut where
  result : Except GripErr (List Nat)
  sscan_calls : Nat
  acquired : Nat
  released : Nat
  deriving DecidableEq, Repr

/-- Translation of `keygrip_from_canon_sexp` (src lines 283-299): a null
`grip` output pointer is `GPG_ERR_INV_VALUE` before anything else; then
the buffer is parsed (errors propagate, no handle held); then the
keygrip capability runs (`GPG_ERR_INTERNAL` when it declines) and the
handle is released on both remaining paths. -/
def keygrip_from_canon_sexp (env : GcryEnv) (key : List Nat) (gripIsNull : Bool) :
    GripOut :=
  if gripIsNull then ⟨.error .invValue, 0, 0, 0⟩
  else
    match env.sscan key with
    | .error code => ⟨.error (.ext code), 1, 0, 0⟩
    | .ok sx =>
      match env.get_keygrip sx with
      | none => ⟨.error .internal, 1, 1, 1⟩
      | some g => ⟨.ok g, 1, 1, 1⟩

-- THEOREMS -----------------------------------------------------------------
theorem stripZeros_nil : stripZeros [] = [] := rfl
theorem stripZeros_cons_zero (t : List Nat) : stripZeros (0 :: t) = stripZeros t := rfl
theorem stripZeros_cons_ne (c : Nat) (t : List Nat) (h : c ≠ 0) :
    stripZeros (c :: t) = c :: t := by
  cases c with
  | zero => exact absurd rfl h
  | succ n => rfl
theorem stripZeros_idem (l : List Nat) : stripZeros (stripZeros l) = stripZeros l := by
  induction l with
  | nil => rfl
  | cons c t ih =>
    cases c with
    | zero => simpa [stripZeros_cons_zero] using ih
    | succ n => rw [stripZeros_cons_ne _ _ (Nat.succ_ne_zero n),
                    stripZeros_cons_ne _ _ (Nat.succ_ne_zero n)]
theorem decBytesGo_digits (fuel n : Nat) (h : n < fuel) :
    ∀ d ∈ decBytesGo fuel n, 48 ≤ d ∧ d ≤ 57 := by
  induction fuel generalizing n with
  | zero => omega
  | succ f ih =>
    intro d hd
    rw [decBytesGo] at hd
    by_cases h10 : n < 10
    · simp [h10] at hd
      omega
    · simp [h10] at hd
      rcases hd with hd | hd
      · exact ih (n / 10) (by omega) d hd
      · have : n % 10 < 10 := Nat.mod_lt _ (by omega)
        omega
theorem decBytes_digits (n : Nat) : ∀ d ∈ decBytes n, 48 ≤ d ∧ d ≤ 57 :=
  decBytesGo_digits (n + 1) n (Nat.lt_succ_self n)
theorem decBytesGo_ne_nil (fuel n : Nat) (h : n < fuel) : decBytesGo fuel n ≠ [] := by
  cases fuel with
  | zero => omega
  | succ f =>
    rw [decBytesGo]
    by_cases h10 : n < 10 <;> simp [h10]
theorem decBytes_ne_nil (n : Nat) : decBytes n ≠ [] :=
  decBytesGo_ne_nil (n + 1) n (Nat.lt_succ_self n)
theorem foldDigits_append (acc : Nat) (a b : List Nat) :
    foldDigits acc (a ++ b) = foldDigits (foldDigits acc a) b := by
  simp [foldDigits, List.foldl_append]
theorem decBytesGo_val (fuel n acc : Nat) (h : n < fuel) :
    foldDigits acc (decBytesGo fuel n) = acc * 10 ^ (decBytesGo fuel n).length + n := by
  induction fuel generalizing n acc with
  | zero => omega
  | succ f ih =>
    rw [decBytesGo]
    by_cases h10 : n < 10
    · simp [h10, foldDigits]
    · simp only [h10, if_false]
      rw [foldDigits_append, ih (n / 10) acc (by omega)]
      have hlen : (decBytesGo f (n / 10) ++ [48 + n % 10]).length
          = (decBytesGo f (n / 10)).length + 1 := by simp
      have hfd : foldDigits (acc * 10 ^ (decBytesGo f (n / 10)).length + n / 10)
            [48 + n % 10]
          = (acc * 10 ^ (decBytesGo f (n / 10)).length + n / 10) * 10 + n % 10 := by
        simp [foldDigits]
      rw [hlen, hfd, Nat.pow_succ]
      have hdm : n / 10 * 10 + n % 10 = n := by omega
      calc (acc * 10 ^ (decBytesGo f (n / 10)).length + n / 10) * 10 + n % 10
          = acc * (10 ^ (decBytesGo f (n / 10)).length * 10)
            + (n / 10 * 10 + n % 10) := by ring
        _ = acc * (10 ^ (decBytesGo f (n / 10)).length * 10) + n := by rw [hdm]
theorem decBytes_val (n : Nat) :
    foldDigits 0 (decBytes n) = n := by
  have := decBytesGo_val (n + 1) n 0 (Nat.lt_succ_self n)
  simpa [decBytes] using this
theorem readLen_digits_prefix (ds : List Nat) (r : List Nat) (acc : Nat)
    (h : ∀ d ∈ ds, 48 ≤ d ∧ d ≤ 57) :
    readLen (ds ++ r) acc = readLen r (foldDigits acc ds) := by
  induction ds generalizing acc with
  | nil => simp [foldDigits]
  | cons c t ih =>
    have hc := h c (List.mem_cons_self c t)
    simp only [List.cons_append, readLen, hc, and_self, if_true]
    show readLen (t ++ r) (acc * 10 + (c - 48)) = readLen r (foldDigits acc (c :: t))
    rw [ih (acc * 10 + (c - 48)) (fun d hd => h d (List.mem_cons_of_mem c hd))]
    simp [foldDigits]
theorem readLen_colon (r : List Nat) (acc : Nat) :
    readLen (58 :: r) acc = (acc, 58 :: r) := by
  simp [readLen]
theorem readLen_suffix_le (l : List Nat) (acc : Nat) :
    (readLen l acc).2.length ≤ l.length := by
  induction l generalizing acc with
  | nil => simp [readLen]
  | cons c t ih =>
    rw [readLen]
    by_cases h : 48 ≤ c ∧ c ≤ 57
    · simp only [h, and_self, if_true]
      exact le_trans (ih _) (by simp)
    · simp [h]
theorem take_len_append (a b : List Nat) : (a ++ b).take a.length = a := by
  induction a with
  | nil => simp
  | cons c t ih => simp [ih]
theorem drop_len_append (a b : List Nat) : (a ++ b).drop a.length = b := by
  induction a with
  | nil => simp
  | cons c t ih => simp [ih]

-- Tokenizer step lemmas ----------------------------------------------------
theorem parse_sexp_open (r : List Nat) (d : Nat) :
    parse_sexp (40 :: r) d = .ok (none, r, d + 1) := by
  simp [parse_sexp]
theorem parse_sexp_close (r : List Nat) (d : Nat) :
    parse_sexp (41 :: r) (d + 1) = .ok (none, r, d) := by
  simp [parse_sexp]
theorem parse_sexp_token (t r : List Nat) (d : Nat) :
    parse_sexp (encTok t ++ r) d = .ok (some t, r, d) := by
  have hdig := decBytes_digits t.length
  have hne := decBytes_ne_nil t.length
  rcases hd : decBytes t.length with _ | ⟨c, ds⟩
  · exact absurd hd hne
  · have hc : 48 ≤ c ∧ c ≤ 57 := by
      apply hdig; rw [hd]; exact List.mem_cons_self c ds
    have hshape : encTok t ++ r = c :: (ds ++ 58 :: (t ++ r)) := by
      simp [encTok, hd]
    rw [hshape, parse_sexp]
    have hc40 : c ≠ 40 := by omega
    have hc41 : c ≠ 41 := by omega
    simp only [hc40, if_false, hc41]
    have hread : readLen (c :: (ds ++ 58 :: (t ++ r))) 0 = (t.length, 58 :: (t ++ r)) := by
      have : c :: (ds ++ 58 :: (t ++ r)) = (c :: ds) ++ 58 :: (t ++ r) := by simp
      rw [this, readLen_digits_prefix (c :: ds) _ 0 (by rw [← hd]; exact hdig),
          readLen_colon]
      rw [← hd, decBytes_val]
    rw [hread]
    have hle : t.length ≤ (t ++ r).length := by simp
    simp only [hle, if_true, take_len_append, drop_len_append]
theorem sign_pad_strip (v : List Nat) : sign_pad v ++ stripZeros v = canonMPI v := by
  rw [sign_pad, zeroExtra, canonMPI]
  by_cases h : needPad v
  · rw [if_pos h, if_pos h]; rfl
  · rw [if_neg h, if_neg h]; rfl
theorem canonMPI_length (v : List Nat) :
    (canonMPI v).length = (stripZeros v).length + zeroExtra v := by
  rw [canonMPI, zeroExtra]
  by_cases h : needPad v
  · rw [if_pos h, if_pos h]; simp
  · rw [if_neg h, if_neg h]; simp
theorem stripZeros_canonMPI (v : List Nat) :
    stripZeros (canonMPI v) = stripZeros v := by
  rw [canonMPI]
  by_cases h : needPad v
  · rw [if_pos h, stripZeros_cons_zero, stripZeros_idem]
  · rw [if_neg h, stripZeros_idem]

-- Facts about single tokenizer steps ---------------------------------------
theorem parse_sexp_ok_facts (buf : List Nat) (d : Nat) (t : Option (List Nat))
    (b1 : List Nat) (d1 : Nat) (h : parse_sexp buf d = .ok (t, b1, d1)) :
    b1.length ≤ buf.length ∧ (buf ≠ [] → b1.length < buf.length) ∧
    (buf = [] → b1 = [] ∧ d1 = 0) ∧ d ≤ d1 + 1 := by
  cases buf with
  | nil =>
    rw [parse_sexp] at h
    split at h
    · rename_i hd
      cases h
      simp [hd]
    · exact Except.noConfusion h
  | cons c rest =>
    rw [parse_sexp] at h
    split at h
    · cases h
      simp
      omega
    · split at h
      · split at h
        · exact Except.noConfusion h
        · rename_i hd
          cases h
          simp
          omega
      · split at h
        · rename_i vlen rest2 heq
          split at h
          · cases h
            have h2 : (58 :: rest2).length ≤ (c :: rest).length := by
              have h4 := readLen_suffix_le (c :: rest) 0
              rw [heq] at h4
              exact h4
            simp at h2 ⊢
            have h3 : (rest2.drop vlen).length ≤ rest2.length := by
              simp
            omega
          · exact Except.noConfusion h
        · exact Except.noConfusion h
theorem parse_le {buf : List Nat} {d : Nat} {t : Option (List Nat)}
    {b1 : List Nat} {d1 : Nat} (h : parse_sexp buf d = .ok (t, b1, d1)) :
    b1.length ≤ buf.length :=
  (parse_sexp_ok_facts buf d t b1 d1 h).1
theorem parse_shrink {buf : List Nat} {d : Nat} {t : Option (List Nat)}
    {b1 : List Nat} {d1 : Nat} (h : parse_sexp buf d = .ok (t, b1, d1))
    (hne : buf ≠ []) : b1.length < buf.length :=
  (parse_sexp_ok_facts buf d t b1 d1 h).2.1 hne
theorem parse_nil_ok {d : Nat} {t : Option (List Nat)} {b1 : List Nat} {d1 : Nat}
    (h : parse_sexp [] d = .ok (t, b1, d1)) : b1 = [] ∧ d1 = 0 :=
  (parse_sexp_ok_facts [] d t b1 d1 h).2.2.1 rfl
theorem parse_depth_ge {buf : List Nat} {d : Nat} {t : Option (List Nat)}
    {b1 : List Nat} {d1 : Nat} (h : parse_sexp buf d = .ok (t, b1, d1)) :
    d ≤ d1 + 1 :=
  (parse_sexp_ok_facts buf d t b1 d1 h).2.2.2

-- List skipper (inner loop of get_rsa_pk_from_canon_sexp) ------------------

theorem skipLoopGo_irrel (f : Nat) :
    ∀ (g : Nat) (buf : List Nat) (d last : Nat), buf.length < f → buf.length < g →
    skipLoopGo f buf d last = skipLoopGo g buf d last := by
  induction f with
  | zero => intro g buf d last hf; omega
  | succ f ih =>
    intro g buf d last hf hg
    cases g with
    | zero => omega
    | succ g =>
      rw [skipLoopGo, skipLoopGo]
      rcases hp : parse_sexp buf d with e | ⟨t, b1, d1⟩
      · rfl
      · simp only []
        split
        · rename_i hc
          cases hbuf : buf with
          | nil =>
            rw [hbuf] at hp
            have := (parse_nil_ok hp).2
            omega
          | cons c rest =>
            have hlt : b1.length < buf.length := parse_shrink hp (by rw [hbuf]; simp)
            exact ih g b1 d1 last (by omega) (by omega)
        · rfl
theorem skipLoop_err {buf : List Nat} {d last : Nat} {e : Err}
    (h : parse_sexp buf d = .error e) : skipLoop buf d last = .error e := by
  rw [skipLoop, skipLoopGo, h]
theorem skipLoop_step {buf : List Nat} {d last : Nat} {t : Option (List Nat)}
    {b1 : List Nat} {d1 : Nat} (h : parse_sexp buf d = .ok (t, b1, d1))
    (h1 : d1 ≠ 0) (h2 : last ≤ d1) : skipLoop buf d last = skipLoop b1 d1 last := by
  rw [skipLoop, skipLoopGo, h]
  simp only [h1, h2, and_self, if_true, ne_eq, not_false_eq_true]
  have hbuf : buf ≠ [] := by
    intro hb
    rw [hb] at h
    exact h1 (parse_nil_ok h).2
  have hlt : b1.length < buf.length := parse_shrink h hbuf
  exact skipLoopGo_irrel _ _ b1 d1 last (by omega) (by omega)
theorem skipLoop_exit {buf : List Nat} {d last : Nat} {t : Option (List Nat)}
    {b1 : List Nat} {d1 : Nat} (h : parse_sexp buf d = .ok (t, b1, d1))
    (hc : ¬(d1 ≠ 0 ∧ last ≤ d1)) : skipLoop buf d last = .ok (b1, d1) := by
  rw [skipLoop, skipLoopGo, h]
  simp only [hc, if_false]
theorem skipLoopGo_le (f : Nat) :
    ∀ (buf : List Nat) (d last : Nat) (b2 : List Nat) (d2 : Nat),
    skipLoopGo f buf d last = .ok (b2, d2) → b2.length ≤ buf.length := by
  induction f with
  | zero => intro buf d last b2 d2 h; exact Except.noConfusion h
  | succ f ih =>
    intro buf d last b2 d2 h
    rw [skipLoopGo] at h
    rcases hp : parse_sexp buf d with e | ⟨t, b1, d1⟩ <;> rw [hp] at h
    · exact Except.noConfusion h
    · simp only [] at h
      split at h
      · exact le_trans (ih b1 d1 last b2 d2 h) (parse_le hp)
      · cases h
        exact parse_le hp
theorem skipLoop_le {buf : List Nat} {d last : Nat} {b2 : List Nat} {d2 : Nat}
    (h : skipLoop buf d last = .ok (b2, d2)) : b2.length ≤ buf.length :=
  skipLoopGo_le _ buf d last b2 d2 h

-- Main sibling loop of get_rsa_pk_from_canon_sexp --------------------------

theorem encSib_append (nm v X : List Nat) :
    encSib nm v ++ X = 40 :: (encTok nm ++ (encTok v ++ (41 :: X))) := by
  simp [encSib]
theorem encTok_length_ge (t : List Nat) : 2 ≤ (encTok t).length := by
  rw [encTok]
  rcases hd : decBytes t.length with _ | ⟨c, ds⟩
  · exact absurd hd (decBytes_ne_nil t.length)
  · simp
    omega
theorem encSib_length_ge (nm v : List Nat) : 4 ≤ (encSib nm v).length := by
  have h1 := encTok_length_ge nm
  have h2 := encTok_length_ge v
  rw [encSib]
  simp
  omega
theorem skip_close3 (X : List Nat) : skipLoop (41 :: X) 3 3 = .ok (X, 2) :=
  skipLoop_exit (parse_sexp_close X 2) (by omega)
theorem skip_tok3 (v X : List Nat) : skipLoop (encTok v ++ (41 :: X)) 3 3 = .ok (X, 2) := by
  rw [skipLoop_step (parse_sexp_token v (41 :: X) 3) (by omega) (by omega), skip_close3]
theorem rsaLoopGo_sib (f : Nat) (nm v X : List Nat) (rn re : Option (List Nat))
    (h : nm ≠ []) :
    rsaLoopGo (f + 1) (encSib nm v ++ X) 2 2 rn re =
      match sibAction nm v rn re with
      | .error e => .error e
      | .ok (rn2, re2) => rsaLoopGo f X 2 2 rn2 re2 := by
  rw [encSib_append, rsaLoopGo]
  rw [parse_sexp_open]
  simp only [Nat.reduceAdd]
  simp only [show ((3 : Nat) ≠ 0 ∧ 2 ≤ 3) = True by simp, if_true]
  rw [parse_sexp_token]
  simp only []
  by_cases h110 : nm = [110]
  · subst h110
    rw [sibAction]
    simp only [if_true, reduceIte]
    cases rn with
    | some x => simp
    | none =>
      simp only [Option.isSome_none, Bool.false_eq_true, if_false]
      rw [parse_sexp_token]
      simp only []
      rw [skip_close3]
  · by_cases h101 : nm = [101]
    · subst h101
      rw [sibAction]
      simp only [show ¬([101] = ([110] : List Nat)) by decide, if_false, if_true, reduceIte]
      cases re with
      | some x => simp
      | none =>
        simp only [Option.isSome_none, Bool.false_eq_true, if_false]
        rw [parse_sexp_token]
        simp only []
        rw [skip_close3]
    · rw [sibAction]
      simp only [h110, h101, if_false]
      by_cases hl : nm.length = 1
      · simp only [hl, if_true, reduceIte]
        rw [parse_sexp_token]
        simp only []
        rw [skip_close3]
      · simp only [hl, if_false, reduceIte]
        rw [skip_tok3]
theorem sibsEnc_cons (nm v : List Nat) (sibs : List (List Nat × List Nat)) :
    sibsEnc ((nm, v) :: sibs) = encSib nm v ++ sibsEnc sibs := by
  simp [sibsEnc]
theorem rsaLoopGo_exit41 (f : Nat) (rest : List Nat) (rn re : Option (List Nat)) :
    rsaLoopGo (f + 1) (41 :: rest) 2 2 rn re = .ok (rn, re, rest, 1) := by
  have hp : parse_sexp (41 :: rest) 2 = .ok (none, rest, 1) := parse_sexp_close rest 1
  rw [rsaLoopGo, hp]
  simp only [show ¬((1 : Nat) ≠ 0 ∧ 2 ≤ 1) by omega, if_false]
theorem rsaLoopGo_sibs (sibs : List (List Nat × List Nat)) :
    ∀ (f : Nat) (rest : List Nat) (rn re : Option (List Nat)),
    (∀ p ∈ sibs, p.1 ≠ ([] : List Nat)) →
    (sibsEnc sibs ++ 41 :: rest).length < f →
    rsaLoopGo f (sibsEnc sibs ++ 41 :: rest) 2 2 rn re =
      match loopRef sibs rn re with
      | .error e => .error e
      | .ok (rn2, re2) => .ok (rn2, re2, rest, 1) := by
  induction sibs with
  | nil =>
    intro f rest rn re h hf
    cases f with
    | zero => simp at hf
    | succ f =>
      have hnil : sibsEnc [] = [] := rfl
      rw [hnil] at hf ⊢
      simp only [List.nil_append]
      rw [rsaLoopGo_exit41, loopRef]
  | cons p sibs ih =>
    intro f rest rn re h hf
    obtain ⟨nm, v⟩ := p
    rw [sibsEnc_cons] at hf ⊢
    rw [List.append_assoc] at hf ⊢
    cases f with
    | zero => simp at hf
    | succ f =>
      have hnm : nm ≠ [] := h (nm, v) (List.mem_cons_self _ _)
      rw [rsaLoopGo_sib f nm v _ rn re hnm]
      have hlen : (sibsEnc sibs ++ 41 :: rest).length < f := by
        have h4 := encSib_length_ge nm v
        rw [List.length_append] at hf
        omega
      rw [loopRef]
      rcases ha : sibAction nm v rn re with e | ⟨rn2, re2⟩
      · simp only []
      · simp only []
        exact ih f rest rn2 re2 (fun q hq => h q (List.mem_cons_of_mem _ hq)) hlen
theorem rsaLoop_sibs (sibs : List (List Nat × List Nat)) (rest : List Nat)
    (rn re : Option (List Nat)) (h : ∀ p ∈ sibs, p.1 ≠ ([] : List Nat)) :
    rsaLoop (sibsEnc sibs ++ 41 :: rest) 2 2 rn re =
      match loopRef sibs rn re with
      | .error e => .error e
      | .ok (rn2, re2) => .ok (rn2, re2, rest, 1) :=
  rsaLoopGo_sibs sibs _ rest rn re h (Nat.lt_succ_self _)
theorem get_rsa_pk_mkRsaKey (sibs : List (List Nat × List Nat))
    (h : ∀ p ∈ sibs, p.1 ≠ ([] : List Nat)) :
    get_rsa_pk_from_canon_sexp (mkRsaKey sibs) = finalize (loopRef sibs none none) := by
  have hkey : mkRsaKey sibs
      = 40 :: (encTok pubkeyTok ++ (40 :: (encTok rsaTok ++ (sibsEnc sibs ++ 41 :: [41])))) :=
    rfl
  rw [get_rsa_pk_from_canon_sexp, hkey, parse_sexp_open]
  simp only []
  rw [parse_sexp_token]
  simp only []
  simp only [show ¬(some pubkeyTok ≠ some pubkeyTok) by simp, if_false, reduceIte]
  rw [parse_sexp_open]
  simp only [Nat.reduceAdd]
  rw [parse_sexp_token]
  simp only []
  simp only [show ¬(some rsaTok ≠ some rsaTok) by simp, if_false, reduceIte]
  rw [rsaLoop_sibs sibs [41] none none h]
  rcases hlr : loopRef sibs none none with e | ⟨rn2, re2⟩
  · simp [finalize]
  · rcases rn2 with _ | nv <;> rcases re2 with _ | ev <;> simp [finalize]

-- Bridge: the builder output is a well-formed two-sibling key --------------
theorem sign_pad_strip_append (v B : List Nat) :
    sign_pad v ++ (stripZeros v ++ B) = canonMPI v ++ B := by
  rw [← List.append_assoc, sign_pad_strip]
theorem decBytes_ten : decBytes 10 = [49, 48] := rfl
theorem decBytes_three : decBytes 3 = [51] := rfl
theorem decBytes_one : decBytes 1 = [49] := rfl
theorem make_eq_mkRsaKey (m e : List Nat)
    (hm : (stripZeros m).length + zeroExtra m < 4294967296)
    (he : (stripZeros e).length + zeroExtra e < 4294967296) :
    make_canon_sexp_from_rsa_pk m e
      = mkRsaKey [([110], canonMPI m), ([101], canonMPI e)] := by
  rw [make_canon_sexp_from_rsa_pk, mkRsaKey, lenStr, lenStr,
      Nat.mod_eq_of_lt hm, Nat.mod_eq_of_lt he,
      ← canonMPI_length m, ← canonMPI_length e]
  simp only [sibsEnc, List.map, List.flatten, encSib, encTok, List.append_assoc]
  rw [sign_pad_strip_append, sign_pad_strip_append]
  simp [part1, part2, part3, pubkeyTok, rsaTok, decBytes_ten, decBytes_three, decBytes_one]
/-- C1 (counterexample): the round-trip claim fails as stated on the valid
MPI byte string `m = [0x00]` (the canonical encoding of zero): the
extractor strips the bound `n` value to the empty byte string and the
final check then fails with `GPG_ERR_BAD_PUBKEY`, so extraction does not
succeed with the canonicalized (leading-zero-stripped) bytes. -/
theorem C1_counterexample :
    get_rsa_pk_from_canon_sexp (make_canon_sexp_from_rsa_pk [0] [3])
        = .error .badPubkey ∧
      get_rsa_pk_from_canon_sexp (make_canon_sexp_from_rsa_pk [0] [3])
        ≠ .ok (stripZeros [0], stripZeros [3]) := by
  decide

/-- C1 (amended): for all MPI byte strings `m`, `e` whose stripped forms
are nonempty (nonzero values; the zero value is rejected by the final
check of the extractor) and whose canonical lengths fit in `unsigned
int`, extracting `n` and `e` from the canonical S-expression built by
`make_canon_sexp_from_rsa_pk` succeeds and yields exactly the
leading-zero-stripped bytes of `m` and of `e`. -/
theorem C1_round_trip_amended (m e : List Nat)
    (hm : stripZeros m ≠ []) (he : stripZeros e ≠ [])
    (hml : (stripZeros m).length + zeroExtra m < 4294967296)
    (hel : (stripZeros e).length + zeroExtra e < 4294967296) :
    get_rsa_pk_from_canon_sexp (make_canon_sexp_from_rsa_pk m e)
      = .ok (stripZeros m, stripZeros e) := by
  rw [make_eq_mkRsaKey m e hml hel,
      get_rsa_pk_mkRsaKey _ (by simp)]
  rw [loopRef]
  rw [show sibAction [110] (canonMPI m) none none
        = .ok (some (stripZeros (canonMPI m)), none) by rw [sibAction]; simp]
  simp only []
  rw [loopRef]
  rw [show sibAction [101] (canonMPI e) (some (stripZeros (canonMPI m))) none
        = .ok (some (stripZeros (canonMPI m)), some (stripZeros (canonMPI e))) by
      rw [sibAction]; simp]
  simp only []
  rw [loopRef, stripZeros_canonMPI, stripZeros_canonMPI, finalize]
  simp [hm, he]

/-- C1 (witness): the amended round trip at `m = [1, 2]`, `e = [3]`. -/
theorem C1_round_trip_witness :
    get_rsa_pk_from_canon_sexp (make_canon_sexp_from_rsa_pk [1, 2] [3])
      = .ok ([1, 2], [3]) :=
  C1_round_trip_amended [1, 2] [3] (by decide) (by decide) (by decide) (by decide)

-- Claim C2 ------------------------------------------------------------------
theorem skipLoopGo_depth (f : Nat) :
    ∀ (buf : List Nat) (d last : Nat) (b2 : List Nat) (d2 : Nat), 1 ≤ last → last ≤ d →
    skipLoopGo f buf d last = .ok (b2, d2) → d2 = last - 1 := by
  induction f with
  | zero => intro buf d last b2 d2 _ _ h; exact Except.noConfusion h
  | succ f ih =>
    intro buf d last b2 d2 h1 h2 h
    rw [skipLoopGo] at h
    rcases hp : parse_sexp buf d with e | ⟨t, b1, d1⟩ <;> rw [hp] at h
    · exact Except.noConfusion h
    · simp only [] at h
      split at h
      · rename_i hc
        exact ih b1 d1 last b2 d2 h1 hc.2 h
      · rename_i hc
        cases h
        have hd := parse_depth_ge hp
        omega

/-- C2: the list skipper preserves the depth bookkeeping exactly: whenever
it is entered with `1 ≤ last ≤ d`, on success the resulting depth is
`last - 1` (the enclosing close consumed, i.e. one less than the depth
observed on entering the skipped sub-list), and an exhausted input is a
`MalformedSexp` failure. -/
theorem C2_skip_depth_invariant (buf : List Nat) (d last : Nat)
    (h1 : 1 ≤ last) (h2 : last ≤ d) :
    (∀ (b2 : List Nat) (d2 : Nat), skipLoop buf d last = .ok (b2, d2) → d2 = last - 1) ∧
    (buf = [] → skipLoop buf d last = .error .malformed) := by
  constructor
  · intro b2 d2 h
    exact skipLoopGo_depth _ buf d last b2 d2 h1 h2 h
  · intro hb
    subst hb
    apply skipLoop_err
    rw [parse_sexp]
    rw [if_neg (by omega)]

/-- C2 (witness): skipping `)` from depth 1 lands at depth 0, and the
skipper fails on exhausted input. -/
theorem C2_skip_depth_witness :
    (0 : Nat) = 1 - 1 ∧ skipLoop [] 1 1 = .error .malformed :=
  ⟨(C2_skip_depth_invariant [41] 1 1 (by decide) (by decide)).1 [] 0 (by rfl),
   (C2_skip_depth_invariant [] 1 1 (by decide) (by decide)).2 rfl⟩

-- Claim C9 ------------------------------------------------------------------
theorem stripZeros_replicate_zero (k : Nat) : stripZeros (List.replicate k 0) = [] := by
  induction k with
  | zero => rfl
  | succ n ih => rw [List.replicate_succ, stripZeros_cons_zero, ih]

/-- C9: a wanted component — `n` or `e` — whose value token is entirely
zero bytes is stripped to the empty range and the extraction fails with
`GPG_ERR_BAD_PUBKEY`, the very same error as when that component is
missing altogether, rather than returning an empty byte range: the
all-zero `n` hits the `!rsa_n_len` disjunct of the final check exactly
as a missing `n` hits `!rsa_n`, and the all-zero `e` hits `!rsa_e_len`
exactly as a missing `e` hits `!rsa_e`. -/
theorem C9_zero_component (k : Nat) (v : List Nat) :
    (get_rsa_pk_from_canon_sexp (mkRsaKey [([110], List.replicate k 0), ([101], v)])
        = .error .badPubkey ∧
      get_rsa_pk_from_canon_sexp (mkRsaKey [([101], v)]) = .error .badPubkey) ∧
    (get_rsa_pk_from_canon_sexp (mkRsaKey [([110], v), ([101], List.replicate k 0)])
        = .error .badPubkey ∧
      get_rsa_pk_from_canon_sexp (mkRsaKey [([110], v)]) = .error .badPubkey) := by
  refine ⟨⟨?_, ?_⟩, ?_, ?_⟩
  · rw [get_rsa_pk_mkRsaKey _ (by simp)]
    simp [loopRef, sibAction, finalize, stripZeros_replicate_zero]
  · rw [get_rsa_pk_mkRsaKey _ (by simp)]
    simp [loopRef, sibAction, finalize]
  · rw [get_rsa_pk_mkRsaKey _ (by simp)]
    simp [loopRef, sibAction, finalize, stripZeros_replicate_zero]
  · rw [get_rsa_pk_mkRsaKey _ (by simp)]
    simp [loopRef, sibAction, finalize]

-- Claim C4 ------------------------------------------------------------------

theorem countName_cons (nm t v : List Nat) (sibs : List (List Nat × List Nat)) :
    countName nm ((t, v) :: sibs)
      = countName nm sibs + (if t = nm then 1 else 0) := by
  rw [countName, countName]
  by_cases h : t = nm <;> simp [List.filter, h]
theorem loopRef_dup :
    ∀ (sibs : List (List Nat × List Nat)) (rn re : Option (List Nat)),
    ((rn.isSome = true ∧ 1 ≤ countName [110] sibs) ∨ 2 ≤ countName [110] sibs ∨
     (re.isSome = true ∧ 1 ≤ countName [101] sibs) ∨ 2 ≤ countName [101] sibs) →
    loopRef sibs rn re = .error .dupValue := by
  intro sibs
  induction sibs with
  | nil =>
    intro rn re h
    simp [countName] at h
  | cons p sibs ih =>
    intro rn re h
    obtain ⟨nm, v⟩ := p
    rw [countName_cons, countName_cons] at h
    rw [loopRef, sibAction]
    by_cases h110 : nm = [110]
    · simp only [h110, if_true, reduceIte]
      cases hrn : rn.isSome with
      | true => simp
      | false =>
        simp only [Bool.false_eq_true, if_false]
        refine ih (some (stripZeros v)) re ?_
        have hne : ¬([110] = ([101] : List Nat)) := by decide
        rw [h110] at h
        simp only [if_true, hne, if_false, reduceIte, add_zero] at h
        rcases h with ⟨ha, _⟩ | h2 | h3 | h4
        · rw [hrn] at ha; exact Bool.noConfusion ha
        · exact Or.inl ⟨rfl, by omega⟩
        · exact Or.inr (Or.inr (Or.inl h3))
        · exact Or.inr (Or.inr (Or.inr h4))
    · by_cases h101 : nm = [101]
      · simp only [h110, if_false, h101, if_true, reduceIte]
        cases hre : re.isSome with
        | true => simp
        | false =>
          simp only [Bool.false_eq_true, if_false]
          refine ih rn (some (stripZeros v)) ?_
          rw [h101] at h
          have hne : ¬([101] = ([110] : List Nat)) := by decide
          simp only [hne, if_false, if_true, reduceIte, add_zero] at h
          rcases h with h1 | h2 | ⟨ha, _⟩ | h4
          · exact Or.inl h1
          · exact Or.inr (Or.inl h2)
          · rw [hre] at ha; exact Bool.noConfusion ha
          · exact Or.inr (Or.inr (Or.inl ⟨rfl, by omega⟩))
      · simp only [h110, if_false, h101, reduceIte]
        refine ih rn re ?_
        simp only [h110, if_false, h101, add_zero] at h
        exact h
theorem loopRef_missing :
    ∀ (sibs : List (List Nat × List Nat)) (re : Option (List Nat)),
    countName [110] sibs = 0 →
    countName [101] sibs + (if re.isSome then 1 else 0) ≤ 1 →
    ∃ re2, loopRef sibs none re = .ok (none, re2) := by
  intro sibs
  induction sibs with
  | nil =>
    intro re h0 h1
    exact ⟨re, rfl⟩
  | cons p sibs ih =>
    intro re h0 h1
    obtain ⟨nm, v⟩ := p
    rw [countName_cons] at h0 h1
    have h110 : nm ≠ [110] := by
      intro hh
      rw [if_pos hh] at h0
      omega
    rw [loopRef, sibAction, if_neg h110]
    by_cases h101 : nm = [101]
    · rw [if_pos h101] at h1
      rw [if_pos h101]
      have hre : re.isSome = false := by
        cases hre2 : re.isSome
        · rfl
        · exfalso
          rw [hre2] at h1
          simp only [reduceIte] at h1
          omega
      rw [hre]
      simp only [Bool.false_eq_true, if_false]
      refine ih (some (stripZeros v)) (by omega) ?_
      simp only [Option.isSome_some, if_true]
      omega
    · rw [if_neg h101]
      rw [if_neg h101] at h1
      exact ih re (by omega) (by omega)

theorem loopRef_missing_e :
    ∀ (sibs : List (List Nat × List Nat)) (rn : Option (List Nat)),
    countName [101] sibs = 0 →
    countName [110] sibs + (if rn.isSome then 1 else 0) ≤ 1 →
    ∃ rn2, loopRef sibs rn none = .ok (rn2, none) := by
  intro sibs
  induction sibs with
  | nil =>
    intro rn h0 h1
    exact ⟨rn, rfl⟩
  | cons p sibs ih =>
    intro rn h0 h1
    obtain ⟨nm, v⟩ := p
    rw [countName_cons] at h0 h1
    have h101 : nm ≠ [101] := by
      intro hh
      rw [if_pos hh] at h0
      omega
    rw [loopRef, sibAction]
    by_cases h110 : nm = [110]
    · rw [if_pos h110] at h1
      rw [if_pos h110]
      have hrn : rn.isSome = false := by
        cases hrn2 : rn.isSome
        · rfl
        · exfalso
          rw [hrn2] at h1
          simp only [reduceIte] at h1
          omega
      rw [hrn]
      simp only [Bool.false_eq_true, if_false]
      refine ih (some (stripZeros v)) (by omega) ?_
      simp only [Option.isSome_some, if_true]
      omega
    · rw [if_neg h110]
      rw [if_neg h110] at h1
      rw [if_neg h101]
      exact ih rn (by omega) (by omega)

/-- C4 (counterexample): on `c4Input` the name `n` occurs in more than one
sibling, yet the extraction succeeds (with the second occurrence bound)
instead of failing with the duplicate-component error. -/
theorem C4_counterexample :
    get_rsa_pk_from_canon_sexp c4Input = .ok ([5], [3]) ∧
      get_rsa_pk_from_canon_sexp c4Input ≠ .error .dupValue := by
  decide

/-- C4 (amended): over keys whose siblings are `(name data-token)` pairs:
if a wanted name (`n` or `e`) occurs in two or more siblings the
extraction fails with `GPG_ERR_DUP_VALUE` (the second occurrence finds
the slot already bound), and if either wanted name — `n` or `e` — never
occurs (and no duplicate error fires first) the extraction fails with
`GPG_ERR_BAD_PUBKEY`, the missing-component error, rather than
succeeding: the `n`-missing case hits the `!rsa_n` disjunct and the
`e`-missing case the `!rsa_e` disjunct of the final check. -/
theorem C4_dup_missing_amended (sibs : List (List Nat × List Nat))
    (h : ∀ p ∈ sibs, p.1 ≠ ([] : List Nat)) :
    (2 ≤ countName [110] sibs ∨ 2 ≤ countName [101] sibs →
      get_rsa_pk_from_canon_sexp (mkRsaKey sibs) = .error .dupValue) ∧
    (countName [110] sibs = 0 ∧ countName [101] sibs ≤ 1 →
      get_rsa_pk_from_canon_sexp (mkRsaKey sibs) = .error .badPubkey) ∧
    (countName [101] sibs = 0 ∧ countName [110] sibs ≤ 1 →
      get_rsa_pk_from_canon_sexp (mkRsaKey sibs) = .error .badPubkey) := by
  refine ⟨?_, ?_, ?_⟩
  · intro hd
    rw [get_rsa_pk_mkRsaKey sibs h,
        loopRef_dup sibs none none
          (by rcases hd with hd | hd
              · exact Or.inr (Or.inl hd)
              · exact Or.inr (Or.inr (Or.inr hd)))]
    rfl
  · intro hmiss
    rw [get_rsa_pk_mkRsaKey sibs h]
    obtain ⟨re2, hre⟩ := loopRef_missing sibs none hmiss.1 (by simp; omega)
    rw [hre]
    cases re2 <;> simp [finalize]
  · intro hmiss
    rw [get_rsa_pk_mkRsaKey sibs h]
    obtain ⟨rn2, hrn⟩ := loopRef_missing_e sibs none hmiss.1 (by simp; omega)
    rw [hrn]
    cases rn2 <;> simp [finalize]

/-- C4 (witness): a doubled `(n …)` sibling pair fails with the duplicate
error; a key with only `(e …)` fails with the missing-component error,
and so does a key with only `(n …)`. -/
theorem C4_dup_missing_witness :
    get_rsa_pk_from_canon_sexp (mkRsaKey [([110], [1]), ([110], [2])])
        = .error .dupValue ∧
      get_rsa_pk_from_canon_sexp (mkRsaKey [([101], [3])]) = .error .badPubkey ∧
      get_rsa_pk_from_canon_sexp (mkRsaKey [([110], [1])]) = .error .badPubkey :=
  ⟨(C4_dup_missing_amended [([110], [1]), ([110], [2])] (by decide)).1
      (Or.inl (by decide)),
   (C4_dup_missing_amended [([101], [3])] (by decide)).2.1 (by decide),
   (C4_dup_missing_amended [([110], [1])] (by decide)).2.2 (by decide)⟩

-- Claim C3 ------------------------------------------------------------------

/-- C3 (amended): whenever the canonicalized component lengths fit in
`unsigned int` (below `2^32`), the builder output is exactly the
concatenation of `(10:public-key(3:rsa(1:n`, the decimal length prefix
and bytes of the canonicalized modulus, `)(1:e`, the decimal length
prefix and bytes of the canonicalized exponent, and `)))`; the length of
this list is the reported output length. -/
theorem C3_builder_amended (m e : List Nat)
    (hm : (canonMPI m).length < 4294967296)
    (he : (canonMPI e).length < 4294967296) :
    make_canon_sexp_from_rsa_pk m e = rsa_sexp_spec m e := by
  rw [canonMPI_length] at hm he
  rw [make_canon_sexp_from_rsa_pk, rsa_sexp_spec, lenStr, lenStr,
      Nat.mod_eq_of_lt hm, Nat.mod_eq_of_lt he,
      ← canonMPI_length m, ← canonMPI_length e]
  simp only [List.append_assoc]
  rw [sign_pad_strip_append, sign_pad_strip_append]

/-- C3 (witness): the amended equality at `m = [1, 2]`, `e = [3]`. -/
theorem C3_builder_witness :
    make_canon_sexp_from_rsa_pk [1, 2] [3] = rsa_sexp_spec [1, 2] [3] :=
  C3_builder_amended [1, 2] [3] (by decide) (by decide)
theorem builder_truncation_len (L : List Nat) (hs : stripZeros L = L) (hnp : ¬ needPad L)
    (hL : L.length = 4294967296) :
    make_canon_sexp_from_rsa_pk L [3] ≠ rsa_sexp_spec L [3] := by
  have hz : zeroExtra L = 0 := by
    rw [zeroExtra, if_neg hnp]
  have hcanon : canonMPI L = L := by
    rw [canonMPI, if_neg hnp, hs]
  have hsp : sign_pad L = [] := by
    rw [sign_pad, hz]
    rfl
  have hls1 : lenStr (L.length + 0) = [48, 58] := by
    rw [lenStr, hL, show (4294967296 + 0) % 4294967296 = 0 from by norm_num]
    rfl
  have hdecN : (decBytes 4294967296).length = 10 := by decide
  intro hEq
  have hlen := congrArg List.length hEq
  rw [make_canon_sexp_from_rsa_pk, rsa_sexp_spec,
      show decBytes (canonMPI [3]).length = [49] from rfl,
      hs, hz, hcanon, hsp, hls1,
      show lenStr ((stripZeros [3]).length + zeroExtra [3]) = [49, 58] from rfl,
      show sign_pad [3] = [] from rfl,
      show canonMPI [3] = [3] from rfl] at hlen
  simp only [List.length_append, hL, hdecN,
             show part1.length = 24 from rfl, show part2.length = 5 from rfl,
             show part3.length = 3 from rfl,
             show (stripZeros [3]).length = 1 from rfl,
             List.length_cons, List.length_nil] at hlen
  omega

/-- C3 (counterexample): for a modulus of `2^32` nonzero bytes the length
prefix is formatted through `(unsigned int)` and wraps to `0`, so the
builder output differs from the claimed concatenation (their lengths
already differ: the code writes the one-digit prefix `0`, the claim
demands the ten-digit prefix `4294967296`). -/
theorem C3_counterexample :
    make_canon_sexp_from_rsa_pk (List.replicate 4294967296 1) [3]
      ≠ rsa_sexp_spec (List.replicate 4294967296 1) [3] := by
  have hcons : List.replicate 4294967296 1 = 1 :: List.replicate 4294967295 1 := by
    rw [show (4294967296 : Nat) = 4294967295 + 1 from rfl, List.replicate_succ]
  have h1 : stripZeros (List.replicate 4294967296 1) = List.replicate 4294967296 1 := by
    conv_lhs => rw [hcons]
    rw [stripZeros_cons_ne 1 _ (by decide), ← hcons]
  have hnp : ¬ needPad (List.replicate 4294967296 1) := by
    rw [needPad, h1, hcons]
    intro hor
    rcases hor with hnil | hbit
    · exact List.noConfusion hnil
    · have hh : (1 :: List.replicate 4294967295 1).headD 0 = 1 := rfl
      rw [hh] at hbit
      exact absurd hbit (by decide)
  exact builder_truncation_len (List.replicate 4294967296 1) h1 hnp (List.length_replicate _ _)

-- Sig-val hash extractor (C5) ----------------------------------------------

theorem snext_shrink {s tok rest : List Nat} (h : snext s = some (tok, rest)) :
    rest.length < s.length := by
  rw [snext] at h
  split at h
  · rename_i n rest2 heq
    split at h
    · exact Option.noConfusion h
    · split at h
      · cases h
        have h4 := readLen_suffix_le s 0
        rw [heq] at h4
        simp at h4
        have h5 : (rest2.drop n).length ≤ rest2.length := by simp
        omega
      · exact Option.noConfusion h
  · exact Option.noConfusion h
theorem snext_token (t r : List Nat) (h : t ≠ []) : snext (encTok t ++ r) = some (t, r) := by
  have hread : readLen (encTok t ++ r) 0 = (t.length, 58 :: (t ++ r)) := by
    have hshape : encTok t ++ r = decBytes t.length ++ (58 :: (t ++ r)) := by
      simp [encTok]
    rw [hshape, readLen_digits_prefix _ _ 0 (decBytes_digits t.length), readLen_colon,
        decBytes_val]
  rw [snext, hread]
  simp only []
  rw [if_neg (by simpa using h), if_pos (by simp), take_len_append, drop_len_append]
theorem sskipGo_irrel (f : Nat) :
    ∀ (g : Nat) (s : List Nat) (d : Nat), s.length < f → s.length < g →
    sskipGo f s d = sskipGo g s d := by
  induction f with
  | zero => intro g s d hf; omega
  | succ f ih =>
    intro g s d hf hg
    cases g with
    | zero => omega
    | succ g =>
      cases s with
      | nil => rw [sskipGo, sskipGo]
      | cons c t =>
        rw [sskipGo, sskipGo]
        by_cases hd : d = 0
        · simp [hd]
        · simp only [hd, if_false]
          by_cases h40 : c = 40
          · simp only [h40, if_true, reduceIte]
            exact ih g t (d + 1) (by simp at hf; omega) (by simp at hg; omega)
          · by_cases h41 : c = 41
            · simp only [h40, if_false, h41, if_true, reduceIte]
              exact ih g t (d - 1) (by simp at hf; omega) (by simp at hg; omega)
            · simp only [h40, h41, if_false, reduceIte]
              rcases hsn : snext (c :: t) with _ | ⟨tok, rest⟩
              · rfl
              · have hlt := snext_shrink hsn
                simp only []
                exact ih g rest d (by simp at hf hlt ⊢; omega) (by simp at hg hlt ⊢; omega)
theorem sskip_zero (s : List Nat) : sskip s 0 = some s := by
  cases s with
  | nil => rfl
  | cons c t =>
    rw [sskip, sskipGo]
    simp
theorem sskip_open (t : List Nat) (d : Nat) : sskip (40 :: t) (d + 1) = sskip t (d + 2) := by
  rw [sskip, sskip]
  simp only [List.length_cons]
  rw [sskipGo]
  rw [if_neg (by omega : ¬(d + 1 = 0))]
  rfl
theorem sskip_close (t : List Nat) (d : Nat) : sskip (41 :: t) (d + 1) = sskip t d := by
  rw [sskip, sskip]
  simp only [List.length_cons]
  rw [sskipGo]
  rw [if_neg (by omega : ¬(d + 1 = 0))]
  simp only [show ¬((41 : Nat) = 40) by decide, if_false, reduceIte]
  rfl
theorem sskip_tok (t r : List Nat) (d : Nat) (h : t ≠ []) :
    sskip (encTok t ++ r) (d + 1) = sskip r (d + 1) := by
  have hne := decBytes_ne_nil t.length
  have hdig := decBytes_digits t.length
  rcases hd : decBytes t.length with _ | ⟨c, ds⟩
  · exact absurd hd hne
  · have hc : 48 ≤ c ∧ c ≤ 57 := by
      apply hdig; rw [hd]; exact List.mem_cons_self c ds
    have hshape : encTok t ++ r = c :: (ds ++ 58 :: (t ++ r)) := by
      simp [encTok, hd]
    have hsn : snext (encTok t ++ r) = some (t, r) := snext_token t r h
    rw [hshape] at hsn ⊢
    rw [sskip]
    simp only [List.length_cons]
    rw [sskipGo]
    rw [if_neg (by omega : ¬(d + 1 = 0)),
        if_neg (by omega : ¬(c = 40)), if_neg (by omega : ¬(c = 41)), hsn]
    simp only []
    have hlt : r.length < (ds ++ 58 :: (t ++ r)).length + 1 := by
      simp
      omega
    exact sskipGo_irrel _ _ r (d + 1) hlt (Nat.lt_succ_self _)

theorem sskip_params (T : List Nat) :
    sskip (encTok rsaTok ++ (40 :: (encTok [115] ++ (encTok [97, 98, 99]
      ++ (41 :: (41 :: T)))))) 1 = some T := by
  rw [show (1 : Nat) = 0 + 1 from rfl]
  rw [sskip_tok _ _ _ (by decide)]
  rw [sskip_open]
  rw [show (0 : Nat) + 2 = 1 + 1 from rfl]
  rw [sskip_tok _ _ _ (by decide), sskip_tok _ _ _ (by decide)]
  rw [sskip_close]
  rw [show (1 : Nat) = 0 + 1 from rfl, sskip_close, sskip_zero]

/-- C5 (amended): when the embedded hash-algorithm name token has 49 or
more bytes (`n + 1 >= sizeof buffer`), `hash_algo_from_sigval` returns
0 — the same value as the "no embedded hash tag" result — for every
algorithm-name registry. -/
theorem C5_too_long_amended (md_map_name : List Nat → Nat) (name : List Nat)
    (h : 49 ≤ name.length) :
    hash_algo_from_sigval md_map_name (mkSigval name) = 0 := by
  have hname : name ≠ [] := by
    intro hn
    rw [hn] at h
    simp at h
  rw [mkSigval, hash_algo_from_sigval]
  simp only [if_true, reduceIte]
  rw [snext_token _ _ (by decide)]
  simp only [if_true, reduceIte]
  rw [sskip_params]
  simp only [if_true, reduceIte]
  rw [snext_token _ _ (by decide)]
  simp only [if_true, reduceIte]
  rw [snext_token _ _ hname]
  simp only []
  rw [if_pos (by omega)]

/-- C5 (witness): the amended theorem at a 49-byte name. -/
theorem C5_too_long_witness :
    hash_algo_from_sigval (fun _ => 2) (mkSigval (List.replicate 49 97)) = 0 :=
  C5_too_long_amended (fun _ => 2) (List.replicate 49 97) (by decide)

/-- C5 (counterexample): with a registry that never returns 0, a sig-val
whose hash name token has 49 bytes still yields 0, exactly the value
returned when the hash tag is absent — the too-long case is *not* a
result distinct from the "none" result. -/
theorem C5_counterexample :
    hash_algo_from_sigval (fun _ => 1) (mkSigval (List.replicate 49 97)) = 0 ∧
      hash_algo_from_sigval (fun _ => 1) mkSigvalNoHash = 0 := by
  decide

-- Hex importer (C7) ---------------------------------------------------------

theorem hexRun_takeWhile (l : List Nat) :
    hexRun l = (l.takeWhile hexdigitp).length := by
  induction l with
  | nil => rfl
  | cons c t ih =>
    rw [hexRun]
    by_cases hc : hexdigitp c
    · rw [if_pos hc, List.takeWhile_cons_of_pos hc, List.length_cons, ih]
    · rw [if_neg hc, List.takeWhile_cons_of_neg (by simpa using hc)]
      rfl

/-- C7: the hex importer consumes exactly the maximal leading run of hex
digits and reports that count; the empty string yields `none` with 0
digits; `"f"` yields the 1-byte value `0x0f` (encoded `(1:\x0f)`) with 1
digit consumed; `"ff!!"` yields the 1-byte value `0xff` with 2 digits
consumed. -/
theorem C7_hex_import :
    (∀ line : List Nat,
      (make_simple_sexp_from_hexstr line).2 = (line.takeWhile hexdigitp).length) ∧
    make_simple_sexp_from_hexstr [] = (none, 0) ∧
    make_simple_sexp_from_hexstr [102] = (some [40, 49, 58, 15, 41], 1) ∧
    make_simple_sexp_from_hexstr [102, 102, 33, 33] = (some [40, 49, 58, 255, 41], 2) := by
  refine ⟨?_, by decide, by decide, by decide⟩
  intro line
  rw [← hexRun_takeWhile, make_simple_sexp_from_hexstr]
  by_cases hn : hexRun line = 0
  · simp [hn]
  · simp [hn]

-- Comparator (C8) -----------------------------------------------------------

/-- C8: with both inputs null the comparator reports identical (0); with
exactly one input null it reports not identical (1); in neither case is
the fatal invalid-shape (`log_bug`) path reached — the null checks
precede every shape check. -/
theorem C8_cmp_null :
    cmp_simple_canon_sexp none none = .ok 0 ∧
    (∀ a : List Nat, cmp_simple_canon_sexp (some a) none = .ok 1 ∧
      cmp_simple_canon_sexp none (some a) = .ok 1) :=
  ⟨rfl, fun _ => ⟨rfl, rfl⟩⟩

-- External parsed-object model (C6, C10) ------------------------------------

/-- C6: the algorithm-identity function never fails outward: for every
key object and every registry, either some step failed and the result is
the unknown identifier 0, or all steps succeeded and the result is the
mapped identifier — refined to `GCRY_PK_EDDSA` exactly when the mapped
identifier is the generic `GCRY_PK_ECC` and a `flags` sub-list carries
the token `eddsa`. -/
theorem C6_pk_algo_total (map_name : List Nat → Nat) (key : Sexp) :
    get_pk_algo_from_key map_name key = 0 ∨
    ∃ lst s, gcry_sexp_nth key 1 = some lst ∧ gcry_sexp_nth_data lst 0 = some s ∧
      s.length < 6 ∧
      ((map_name s ≠ GCRY_PK_ECC ∧ get_pk_algo_from_key map_name key = map_name s) ∨
       (map_name s = GCRY_PK_ECC ∧ get_pk_algo_from_key map_name key =
          (if hasEddsaFlag lst then GCRY_PK_EDDSA else GCRY_PK_ECC))) := by
  rcases h1 : gcry_sexp_nth key 1 with _ | lst
  · left
    rw [get_pk_algo_from_key, h1]
  · rcases h2 : gcry_sexp_nth_data lst 0 with _ | s
    · left
      simp only [get_pk_algo_from_key, h1, h2]
    · by_cases h3 : 6 ≤ s.length
      · left
        simp only [get_pk_algo_from_key, h1, h2]
        rw [if_pos h3]
      · by_cases h4 : map_name s = GCRY_PK_ECC
        · refine Or.inr ⟨lst, s, rfl, h2, by omega, Or.inr ⟨h4, ?_⟩⟩
          simp only [get_pk_algo_from_key, h1, h2]
          rw [if_neg h3, if_pos h4, h4]
        · refine Or.inr ⟨lst, s, rfl, h2, by omega, Or.inl ⟨h4, ?_⟩⟩
          simp only [get_pk_algo_from_key, h1, h2]
          rw [if_neg h3, if_neg h4]

-- Keygrip bridge (C10) ------------------------------------------------------

/-- C10: with a null 20-byte grip output pointer the bridge returns
`GPG_ERR_INV_VALUE` immediately — for every environment and every key
buffer the parser is never invoked and no parsed-object handle is
acquired or needs releasing. -/
theorem C10_keygrip_null_grip (env : GcryEnv) (key : List Nat) :
    keygrip_from_canon_sexp env key true = ⟨.error .invValue, 0, 0, 0⟩ :=
  rfl

